import Mathlib

/-!
Verification of the RC-file string extractor (localization/parse_rc_file.py).

The Python function parse_rc_file is shallowly embedded here over lists of
characters. Strings are List Char; each regular expression of the source is
translated into an executable Lean function reproducing the leftmost-match,
greedy/lazy and backtracking semantics of the Python re module on the inputs
the parser feeds it (single lines, which contain no newline characters).
Python characters can hold lone surrogates while Lean Char cannot; Char.ofNat
maps such code points to U+0000. Unicode whitespace above U+00FF other than
U+2028/U+2029 is not modelled (the parser only treats ASCII-ish whitespace
meaningfully).
-/

abbrev Line := List Char

/-- Characters collapsed by the normalization regex [\t ]+. -/
def isTabSpace (c : Char) : Bool := c == '\t' || c == ' '

/-- Characters stripped by Python str.strip (ASCII/Latin-1 whitespace). -/
def isPySpace (c : Char) : Bool :=
  c == ' ' || c == '\t' || c == '\n' || c == '\r' ||
  c == Char.ofNat 11 || c == Char.ofNat 12 ||
  c == Char.ofNat 28 || c == Char.ofNat 29 || c == Char.ofNat 30 || c == Char.ofNat 31 ||
  c == Char.ofNat 133 || c == Char.ofNat 160

/-- Word characters of the regex class \w (ASCII model). -/
def isWordChar (c : Char) : Bool := c.isAlphanum || c == '_'

/-- Line boundaries recognized by Python str.splitlines. -/
def isLineBreakChar (c : Char) : Bool :=
  c == '\n' || c == '\r' ||
  c == Char.ofNat 11 || c == Char.ofNat 12 ||
  c == Char.ofNat 28 || c == Char.ofNat 29 || c == Char.ofNat 30 ||
  c == Char.ofNat 133 || c == Char.ofNat 0x2028 || c == Char.ofNat 0x2029

/-- Worker for splitlines: accumulates the current line (reversed). A CRLF
pair counts as a single boundary; a trailing boundary produces no empty
final line. -/
def splitlinesAux (acc : Line) : Line → List Line
  | [] => [acc.reverse]
  | [c] => if isLineBreakChar c then [acc.reverse] else [(c :: acc).reverse]
  | c :: d :: rest =>
    if c == '\r' && d == '\n' then
      if rest.isEmpty then [acc.reverse] else acc.reverse :: splitlinesAux [] rest
    else if isLineBreakChar c then
      acc.reverse :: splitlinesAux [] (d :: rest)
    else splitlinesAux (c :: acc) (d :: rest)

/-- Python str.splitlines: split on line boundaries, treating CRLF as one
boundary and producing no empty final line for a trailing boundary. -/
def splitlines (l : Line) : List Line := if l.isEmpty then [] else splitlinesAux [] l

/-- Python str.strip (both ends). -/
def stripPy (l : Line) : Line := ((l.dropWhile isPySpace).reverse.dropWhile isPySpace).reverse

/-- Worker for the whitespace-collapsing substitution; the flag records
whether the previous character was a tab or space. -/
def collapseWSAux : Bool → Line → Line
  | _, [] => []
  | prevWS, c :: rest =>
    if isTabSpace c then
      if prevWS then collapseWSAux true rest else ' ' :: collapseWSAux true rest
    else c :: collapseWSAux false rest

/-- re.sub of [\t ]+ with a single space. -/
def collapseWS (l : Line) : Line := collapseWSAux false l

/-- re.sub removing everything from the first // to the end of the line. -/
def stripComment : Line → Line
  | [] => []
  | c :: rest => if c == '/' && rest.head? == some '/' then [] else c :: stripComment rest

/-- The per-line normalization of the source: strip, collapse [\t ]+ to a
single space, then drop a trailing // comment. -/
def normalizeLine (line : Line) : Line := stripComment (collapseWS (stripPy line))

/-- re.match of (\w+) (DIALOG|DIALOGEX) at the start of the normalized
line; returns the captured identifier. The maximal \w+ run must be
followed by a space and the literal alternative with a trailing space. -/
def dialogMatch (norm : Line) : Option Line :=
  let w := norm.takeWhile isWordChar
  let rest := norm.dropWhile isWordChar
  if !w.isEmpty && ((" DIALOG ".toList).isPrefixOf rest || (" DIALOGEX ".toList).isPrefixOf rest)
  then some w else none

/-- Whether a character occurs in the line (regex-engine helper). -/
def hasChar (x : Char) : Line → Bool
  | [] => false
  | c :: r => c == x || hasChar x r

/-- For the greedy pattern (.*)" the closing quote is the last quote of the
searched segment: keep everything up to and including the last quote. -/
def upToLastQuote (seg : Line) : Line := (seg.reverse.dropWhile (fun c => !(c == '"'))).reverse

/-- Match the greedy pattern L?"(.*)" at the start of the line, as used by
re.search in the fallback branch and by the dead third sub-branch. The
optional L is consumed greedily; the dot does not cross a newline; the
closing quote is the last quote before any newline. Returns the whole match. -/
def matchLQuoted (l : Line) : Option Line :=
  match l with
  | 'L' :: '"' :: rest =>
    let seg := rest.takeWhile (fun c => !(c == '\n'))
    if hasChar '"' seg then some ('L' :: '"' :: upToLastQuote seg) else none
  | '"' :: rest =>
    let seg := rest.takeWhile (fun c => !(c == '\n'))
    if hasChar '"' seg then some ('"' :: upToLastQuote seg) else none
  | _ => none

/-- re.search for (L?"(.*)"): try each start position from the left. -/
def searchQuoted : Line → Option Line
  | [] => none
  | c :: rest =>
    match matchLQuoted (c :: rest) with
    | some m => some m
    | none => searchQuoted rest

/-- re.match of [\t ]*(L?"(.*)") (third fallback sub-branch). -/
def matchStartQuoted (line : Line) : Option Line := matchLQuoted (line.dropWhile isTabSpace)

/-- Backtracking engine for the lazy quoted-literal body (.*?(\"\")*)*? as
executed by the re module at a point where one or more characters have just
been consumed: a leading quote pair is consumed greedily and scanning
continues after it; if everything after the pair fails, the first quote of
the pair closes the literal. Returns the number of characters consumed,
including the closing quote. -/
def lazyG : Line → Option Nat
  | [] => none
  | '"' :: '"' :: r2 =>
    (match lazyG r2 with
     | some m => some (2 + m)
     | none => some 1)
  | '"' :: _ => some 1
  | _ :: r => (lazyG r).map (· + 1)

/-- Entry point of the lazy body directly after the opening quote: the
zero-iteration attempt of the lazy loop closes immediately on a quote. -/
def lazyClose : Line → Option Nat
  | [] => none
  | '"' :: _ => some 1
  | _ :: r => (lazyG r).map (· + 1)

/-- The lazy quoted-literal pattern L?"(...)" of the CAPTION and item
regexes, matched at the start of the given suffix; returns the whole
matched literal including quotes and optional L prefix. -/
def lazyQuoted (l : Line) : Option Line :=
  match l with
  | 'L' :: '"' :: rest => (lazyClose rest).map (fun m => 'L' :: '"' :: rest.take m)
  | '"' :: rest => (lazyClose rest).map (fun m => '"' :: rest.take m)
  | _ => none

/-- re.match of [\t ]*(CAPTION)[\t ]+(L?"(.*?("")*)*?") on the raw line;
returns the quoted literal (group 2). -/
def captionMatch (line : Line) : Option Line :=
  let l := line.dropWhile isTabSpace
  if ("CAPTION".toList).isPrefixOf l then
    let r := l.drop 7
    if r.head?.any isTabSpace then lazyQuoted (r.dropWhile isTabSpace) else none
  else none

/-- re.match of [\t ]*(\w+)[\t ]+(L?"([^\"]*?(\"\")*)*?")(,[\t ]*(\w+)){0,1}
on the raw line; returns (leading word, quoted literal, optional trailing
identifier), i.e. groups 1, 2 and 6. -/
def itemMatch (line : Line) : Option (Line × Line × Option Line) :=
  let l := line.dropWhile isTabSpace
  let w := l.takeWhile isWordChar
  if w.isEmpty then none
  else
    let r := l.dropWhile isWordChar
    if r.head?.any isTabSpace then
      let r2 := r.dropWhile isTabSpace
      match lazyQuoted r2 with
      | some q =>
        let after := r2.drop q.length
        let g6 :=
          match after with
          | ',' :: a2 =>
            let idt := (a2.dropWhile isTabSpace).takeWhile isWordChar
            if idt.isEmpty then none else some idt
          | _ => none
        some (w, q, g6)
      | none => none
    else none

/-- re.match of [\t ]*(\w+)[\t ]*(\/\/.*)*$ on the raw line: a bare
identifier optionally followed by a // comment; returns the identifier. -/
def bareIdMatch (line : Line) : Option Line :=
  let l := line.dropWhile isTabSpace
  let w := l.takeWhile isWordChar
  if w.isEmpty then none
  else
    let r := (l.dropWhile isWordChar).dropWhile isTabSpace
    if r.isEmpty || (['/', '/'] : Line).isPrefixOf r then some w else none

/-- The group (.*) of the anchored strip pattern L?"(.*)"$ applied to what
follows the opening quote: succeeds when the last character is a quote and
the middle crosses no newline. -/
def bodyOf (r : Line) : Option Line :=
  if r.getLast? == some '"' && !(hasChar '\n' r.dropLast) then some r.dropLast else none

/-- re.sub of the anchored pattern L?"(.*)"$ with the group (.*): strips an
optional L prefix and the surrounding quotes, leaving the string unchanged
when the pattern does not match. -/
def stripOuter (s : Line) : Line :=
  match s with
  | 'L' :: '"' :: rest =>
    (match bodyOf rest with
     | some b => b
     | none => 'L' :: '"' :: rest)
  | '"' :: rest =>
    (match bodyOf rest with
     | some b => b
     | none => '"' :: rest)
  | _ => s

/-- Python str.replace for a two-character pattern: left-to-right,
non-overlapping, the replacement is not rescanned. -/
def replace2 (a b : Char) (rep : Line) : Line → Line
  | x :: y :: rest =>
    if x == a && y == b then rep ++ replace2 a b rep rest
    else x :: replace2 a b rep (y :: rest)
  | l => l

/-- Python str.replace for a three-character pattern. -/
def replace3 (a b c : Char) (rep : Line) : Line → Line
  | x :: y :: z :: rest =>
    if x == a && y == b && z == c then rep ++ replace3 a b c rep rest
    else x :: replace3 a b c rep (y :: z :: rest)
  | l => l

/-- Hex digits of the class [0-9a-fA-F]. -/
def isHexDig (c : Char) : Bool :=
  ('0' ≤ c && c ≤ '9') || ('a' ≤ c && c ≤ 'f') || ('A' ≤ c && c ≤ 'F')

/-- Value of a hex digit as parsed by int(h, 16). -/
def hexDigitVal (c : Char) : Nat :=
  if '0' ≤ c && c ≤ '9' then c.toNat - 48
  else if 'a' ≤ c && c ≤ 'f' then c.toNat - 87
  else if 'A' ≤ c && c ≤ 'F' then c.toNat - 55
  else 0

/-- re.sub of \\x([0-9a-fA-F]{4}) with chr(int(group, 16)): decode
four-hex-digit escapes in wide literals, scanning left to right. -/
def decodeWide : Line → Line
  | '\\' :: 'x' :: a :: b :: c :: d :: rest =>
    if isHexDig a && isHexDig b && isHexDig c && isHexDig d then
      Char.ofNat (hexDigitVal a * 4096 + hexDigitVal b * 256 + hexDigitVal c * 16 + hexDigitVal d)
        :: decodeWide rest
    else '\\' :: decodeWide ('x' :: a :: b :: c :: d :: rest)
  | ch :: rest => ch :: decodeWide rest
  | [] => []

/-- The literal decoding of the source: detect the L prefix, strip prefix
and quotes, replace the two-character sequences \r, \n, \t and then the
THREE-character sequence backslash-backslash-quote (the source calls
str.replace with the raw string containing two backslashes and a quote),
finally decode \xHHHH escapes when wide. -/
def decodeLiteral (r : Line) : Line :=
  let wide := r.head? == some 'L'
  let b0 := stripOuter r
  let b1 := replace2 '\\' 'r' ['\r'] b0
  let b2 := replace2 '\\' 'n' ['\n'] b1
  let b3 := replace2 '\\' 't' ['\t'] b2
  let b4 := replace3 '\\' '\\' '"' ['"'] b3
  if wide then decodeWide b4 else b4

/-- The mutable scan state of the line loop. -/
structure RcState where
  strings : List Line
  menu : Bool
  dialog : Bool
  stringTbl : Bool
  blockLevel : Int
  idStr : Option Line
  hintStr : Option Line
  dialogId : Option Line
  origStr : Option Line
deriving Repr, DecidableEq

/-- Initial state of parse_rc_file. -/
def initState : RcState :=
  { strings := [], menu := false, dialog := false, stringTbl := false, blockLevel := 0,
    idStr := none, hintStr := none, dialogId := none, origStr := none }

/-- Python truthiness of an optional string: None and the empty string are
falsy. -/
def truthyOpt : Option Line → Bool
  | none => false
  | some l => !l.isEmpty

/-- Python f-string formatting of a possibly-None value. -/
def pyFmt : Option Line → Line
  | some l => l
  | none => "None".toList

/-- The block/state tracking of the loop body: MENU suffix, DIALOG match,
STRINGTABLE, BEGIN and END (END resets the construct flags when the level
reaches zero; the decrement itself is unconditional). -/
def stepFlags (st : RcState) (line : Line) : RcState :=
  let norm := normalizeLine line
  let menu1 := if (" MENU".toList).isSuffixOf norm then true else st.menu
  let dialog1 := if (dialogMatch norm).isSome then true else st.dialog
  let dialogId1 := if (dialogMatch norm).isSome then dialogMatch norm else st.dialogId
  let stbl1 := if norm = "STRINGTABLE".toList then true else st.stringTbl
  let bl1 := if norm = "BEGIN".toList then st.blockLevel + 1 else st.blockLevel
  if norm = "END".toList then
    if bl1 - 1 = 0 then
      { st with menu := false, dialog := false, dialogId := none, stringTbl := false,
                blockLevel := bl1 - 1 }
    else
      { st with menu := menu1, dialog := dialog1, dialogId := dialogId1, stringTbl := stbl1,
                blockLevel := bl1 - 1 }
  else
    { st with menu := menu1, dialog := dialog1, dialogId := dialogId1, stringTbl := stbl1,
              blockLevel := bl1 }

/-- The line-grammar dispatch of the loop body, computing the new values of
the id/hint/raw-literal scratch fields from the flag-updated state. -/
def dispatchTriple (st : RcState) (line : Line) : Option Line × Option Line × Option Line :=
  if st.dialog = true ∧ st.blockLevel = 0 then
    match captionMatch line with
    | some lit =>
      (some (pyFmt st.dialogId ++ ':' :: "CAPTION".toList),
       some (pyFmt st.dialogId ++ ' ' :: "CAPTION".toList),
       some lit)
    | none => (st.idStr, st.hintStr, st.origStr)
  else if (st.menu = true ∨ st.dialog = true) ∧ ¬ st.blockLevel = 0 then
    match itemMatch line with
    | some (w, lit, g6) =>
      (g6,
       some (match g6 with | some g => w ++ ' ' :: g | none => w),
       some lit)
    | none => (st.idStr, st.hintStr, st.origStr)
  else
    match searchQuoted line with
    | some m => (st.idStr, st.hintStr, some m)
    | none =>
      match bareIdMatch line with
      | some w => (some w, st.hintStr, st.origStr)
      | none =>
        match matchStartQuoted line with
        | some m =>
          if truthyOpt st.idStr then (st.idStr, st.idStr, some m)
          else (none, st.hintStr, st.origStr)
        | none => (none, st.hintStr, st.origStr)

/-- Store the dispatch result into the state. -/
def dispatch (st : RcState) (line : Line) : RcState :=
  { st with idStr := (dispatchTriple st line).1,
            hintStr := (dispatchTriple st line).2.1,
            origStr := (dispatchTriple st line).2.2 }

/-- The emission gate of the loop body: when the raw-literal field is
truthy, decode it, append it to the output and clear the scratch fields. -/
def emitGate (st : RcState) : RcState :=
  match st.origStr with
  | some o =>
    if o.isEmpty then st
    else { st with strings := st.strings ++ [decodeLiteral o],
                   idStr := none, hintStr := none, origStr := none }
  | none => st

/-- One full iteration of the line loop. -/
def stepLine (st : RcState) (line : Line) : RcState := emitGate (dispatch (stepFlags st line) line)

/-- The loop over the lines, from the initial state. -/
def runLines (ls : List Line) : RcState := ls.foldl stepLine initState

/-- parse_rc_file: split the text into lines, run the scan, return the
extracted strings in order. -/
def parse_rc_file (text : Line) : List Line := (runLines (splitlines text)).strings

/-! ## Exception-instrumented variant

The only operation of the source that can raise for reasons not excluded
syntactically is chr(): it raises ValueError when its argument exceeds
0x10FFFF. The variant below threads Except through the literal decoding to
model that raising behavior; all the other operations of the source (regex
matching, slicing, int() on four scanned hex digits, list append) are total
on every input. -/

/-- Python chr: errors outside the code-point range. -/
def chrE (n : Nat) : Except String Char :=
  if n < 1114112 then Except.ok (Char.ofNat n) else Except.error "chr() arg not in range"

/-- decodeWide with the chr() failure modelled explicitly. -/
def decodeWideE : Line → Except String Line
  | '\\' :: 'x' :: a :: b :: c :: d :: rest =>
    if isHexDig a && isHexDig b && isHexDig c && isHexDig d then do
      let ch ← chrE (hexDigitVal a * 4096 + hexDigitVal b * 256 + hexDigitVal c * 16 + hexDigitVal d)
      let tl ← decodeWideE rest
      pure (ch :: tl)
    else do
      let tl ← decodeWideE ('x' :: a :: b :: c :: d :: rest)
      pure ('\\' :: tl)
  | ch :: rest => do
    let tl ← decodeWideE rest
    pure (ch :: tl)
  | [] => Except.ok []

/-- decodeLiteral with the chr() failure modelled explicitly. -/
def decodeLiteralE (r : Line) : Except String Line :=
  let wide := r.head? == some 'L'
  let b0 := stripOuter r
  let b1 := replace2 '\\' 'r' ['\r'] b0
  let b2 := replace2 '\\' 'n' ['\n'] b1
  let b3 := replace2 '\\' 't' ['\t'] b2
  let b4 := replace3 '\\' '\\' '"' ['"'] b3
  if wide then decodeWideE b4 else Except.ok b4

/-- One loop iteration with the chr() failure modelled explicitly. -/
def stepLineE (st : RcState) (line : Line) : Except String RcState :=
  let st1 := dispatch (stepFlags st line) line
  match st1.origStr with
  | some o =>
    if o.isEmpty then Except.ok st1
    else do
      let d ← decodeLiteralE o
      Except.ok { st1 with strings := st1.strings ++ [d],
                           idStr := none, hintStr := none, origStr := none }
  | none => Except.ok st1

/-- parse_rc_file with the chr() failure modelled explicitly. -/
def parse_rc_fileE (text : Line) : Except String (List Line) :=
  ((splitlines text).foldlM stepLineE initState).map RcState.strings

/-! ## Round-trip encoder and line counters used by the claims -/

/-- Encode one character into RC literal form: escape carriage return, line
feed, tab and double quote. -/
def escChar (c : Char) : Line :=
  if c = '\r' then ['\\', 'r']
  else if c = '\n' then ['\\', 'n']
  else if c = '\t' then ['\\', 't']
  else if c = '"' then ['\\', '"']
  else [c]

/-- Encode a string body into RC literal form. -/
def escBody : Line → Line
  | [] => []
  | c :: rest => escChar c ++ escBody rest

/-- Encode a plain string as an RC string literal: escape and wrap in
double quotes. -/
def encodeRC (s : Line) : Line := '"' :: (escBody s ++ ['"'])

/-- Characters for which the encoder round-trips through the extractor: no
double quote, no backslash, and no line separator other than carriage
return and line feed (which the encoder escapes). -/
def okChar (c : Char) : Bool :=
  !(c == '"') && !(c == '\\') && (c == '\r' || c == '\n' || !(isLineBreakChar c))

/-- Number of lines normalizing to exactly BEGIN. -/
def countBegin (ls : List Line) : Nat := ls.countP (fun l => normalizeLine l == "BEGIN".toList)

/-- Number of lines normalizing to exactly END. -/
def countEnd (ls : List Line) : Nat := ls.countP (fun l => normalizeLine l == "END".toList)

/-! ## Concrete evaluations settling the fully-ground claims -/

/-- C1 (evaluation at the failing input): on the single-line input
containing the literal with body a\"b, the extractor leaves the
two-character sequence backslash-quote verbatim in the output instead of
decoding it to a bare double quote, because the source replaces the
three-character sequence backslash-backslash-quote rather than the
two-character escape. -/
theorem C1_code_eval :
    parse_rc_file ("\"a\\\"b\"".toList) = ["a\\\"b".toList] := by decide

/-- C5: \xHHHH escapes decode to the corresponding code point exactly in
wide literals: the line with literal L"\x0041\x0042" yields AB, while the
same literal without the L prefix is left verbatim. -/
theorem C5_wide_hex :
    parse_rc_file ("L\"\\x0041\\x0042\"".toList) = ["AB".toList] ∧
    parse_rc_file ("\"\\x0041\\x0042\"".toList) = ["\\x0041\\x0042".toList] := by decide

/-- C6: the MENU block with POPUP &File and MENUITEM &Open... yields
exactly the two labels in order, ampersands preserved literally. -/
theorem C6_menu_block :
    parse_rc_file
      ("IDR_MAINMENU MENU\nBEGIN\nPOPUP \"&File\"\nBEGIN\nMENUITEM \"&Open...\", ID_FILE_OPEN\nEND\nEND".toList)
      = ["&File".toList, "&Open...".toList] := by decide

/-- C8: the two-line stringtable idiom IDS_GREETING then "Hello, world!"
yields the decoded string; the identifier line alone emits nothing and
records the identifier as the pending id. -/
theorem C8_two_line_stringtable :
    parse_rc_file ("IDS_GREETING\n\"Hello, world!\"".toList) = ["Hello, world!".toList] ∧
    (stepLine initState ("IDS_GREETING".toList)).strings = [] ∧
    (stepLine initState ("IDS_GREETING".toList)).idStr = some ("IDS_GREETING".toList) := by decide

/-- C9: the line IDS_FOO "bar" followed by a // comment yields exactly bar;
no part of the comment reaches the output. -/
theorem C9_comment_strip :
    parse_rc_file ("IDS_FOO \"bar\" // translators: context note".toList) = ["bar".toList] := by
  decide

/-- C10: an empty quoted literal is emitted as the empty string, both on a
bare line and inside a STRINGTABLE block: the emission gate tests the raw
literal (quotes included, hence non-empty and truthy), so the decoded empty
body is still appended. -/
theorem C10_empty_literal :
    parse_rc_file ("\"\"".toList) = [[]] ∧
    parse_rc_file ("STRINGTABLE\nBEGIN\nIDS_EMPTY \"\"\nEND".toList) = [[]] ∧
    truthyOpt (some ("\"\"".toList)) = true := by decide

/-- C4 (counterexample): on the single line END the block level becomes
negative, refuting the claim that it stays non-negative on every input. -/
theorem C4_counterexample :
    ¬ (0 ≤ (runLines (splitlines ("END".toList))).blockLevel) := by decide

/-- C2 (counterexample): the round trip fails for the two-character string
backslash-n, which the encoder leaves as a literal backslash-n sequence and
the decoder then turns into a line feed. -/
theorem C2_counterexample :
    parse_rc_file (encodeRC ['\\', 'n']) ≠ [['\\', 'n']] := by decide

/-! ## Block-level arithmetic (claims C4 and C7) -/

lemma dispatch_blockLevel (st : RcState) (l : Line) : (dispatch st l).blockLevel = st.blockLevel := rfl

lemma dispatch_dialog (st : RcState) (l : Line) : (dispatch st l).dialog = st.dialog := rfl

lemma dispatch_dialogId (st : RcState) (l : Line) : (dispatch st l).dialogId = st.dialogId := rfl

lemma emitGate_blockLevel (st : RcState) : (emitGate st).blockLevel = st.blockLevel := by
  unfold emitGate
  split
  · split <;> rfl
  · rfl

lemma emitGate_dialog (st : RcState) : (emitGate st).dialog = st.dialog := by
  unfold emitGate
  split
  · split <;> rfl
  · rfl

lemma emitGate_dialogId (st : RcState) : (emitGate st).dialogId = st.dialogId := by
  unfold emitGate
  split
  · split <;> rfl
  · rfl

lemma stepFlags_blockLevel (st : RcState) (l : Line) :
    (stepFlags st l).blockLevel =
      st.blockLevel + (if normalizeLine l = "BEGIN".toList then 1 else 0)
        - (if normalizeLine l = "END".toList then 1 else 0) := by
  by_cases hE : normalizeLine l = "END".toList <;>
    by_cases hB : normalizeLine l = "BEGIN".toList
  · rw [hB] at hE
    exact absurd hE (by decide)
  · simp only [stepFlags, if_pos hE, if_neg hB]
    split <;> simp
  · simp only [stepFlags, if_neg hE, if_pos hB]
    simp
  · simp only [stepFlags, if_neg hE, if_neg hB]
    simp

lemma stepLine_blockLevel (st : RcState) (l : Line) :
    (stepLine st l).blockLevel =
      st.blockLevel + (if normalizeLine l = "BEGIN".toList then 1 else 0)
        - (if normalizeLine l = "END".toList then 1 else 0) := by
  unfold stepLine
  rw [emitGate_blockLevel, dispatch_blockLevel, stepFlags_blockLevel]

lemma foldl_blockLevel (ls : List Line) :
    ∀ st : RcState,
      (ls.foldl stepLine st).blockLevel =
        st.blockLevel + (countBegin ls : Int) - (countEnd ls : Int) := by
  induction ls with
  | nil => intro st; simp [countBegin, countEnd]
  | cons l ls ih =>
    intro st
    simp only [List.foldl_cons]
    rw [ih, stepLine_blockLevel]
    unfold countBegin countEnd
    rw [List.countP_cons, List.countP_cons]
    simp only [beq_iff_eq]
    by_cases hB : normalizeLine l = "BEGIN".toList <;>
      by_cases hE : normalizeLine l = "END".toList <;>
        simp only [if_pos, if_neg, hB, hE, if_true, if_false] <;> push_cast <;> omega

/-- C4 (amended): the block level stays non-negative on every list of lines
containing at least as many BEGIN lines as END lines; in general it equals
the count of BEGIN lines minus the count of END lines and can go negative. -/
theorem C4_amended (ls : List Line) (h : countEnd ls ≤ countBegin ls) :
    0 ≤ (runLines ls).blockLevel := by
  unfold runLines
  rw [foldl_blockLevel]
  simp only [initState]
  omega

theorem C4_witness :
    countEnd [("BEGIN".toList)] ≤ countBegin [("BEGIN".toList)] ∧
      0 ≤ (runLines [("BEGIN".toList)]).blockLevel :=
  ⟨by decide, C4_amended _ (by decide)⟩

/-- C7: an END line decrements the block level; while the level stays
positive the dialog flag and captured dialog id are untouched, and exactly
when the decrement brings the level to zero they are reset. -/
theorem C7_nested_end :
    (∀ st : RcState, st.blockLevel = 2 →
      (stepLine st ("END".toList)).dialog = st.dialog ∧
      (stepLine st ("END".toList)).dialogId = st.dialogId ∧
      (stepLine st ("END".toList)).blockLevel = 1) ∧
    (∀ st : RcState, st.blockLevel = 1 →
      (stepLine st ("END".toList)).dialog = false ∧
      (stepLine st ("END".toList)).dialogId = none ∧
      (stepLine st ("END".toList)).blockLevel = 0) := by
  have hnorm : normalizeLine ("END".toList) = "END".toList := by decide
  have hBEG : ¬ (("END".toList : Line) = "BEGIN".toList) := by decide
  have hdm : dialogMatch ("END".toList) = none := by decide
  have hsuf : ((" MENU".toList).isSuffixOf ("END".toList)) = false := by decide
  constructor
  · intro st h
    have hne : ¬ (st.blockLevel - 1 = 0) := by rw [h]; decide
    have hflags : stepFlags st ("END".toList) = { st with blockLevel := st.blockLevel - 1 } := by
      simp only [stepFlags, hnorm, hdm, hsuf, if_neg hBEG, if_pos rfl, if_neg hne]
      simp
    unfold stepLine
    rw [hflags]
    refine ⟨by rw [emitGate_dialog, dispatch_dialog], by rw [emitGate_dialogId, dispatch_dialogId], ?_⟩
    rw [emitGate_blockLevel, dispatch_blockLevel]
    show st.blockLevel - 1 = 1
    rw [h]
    decide
  · intro st h
    have hz : st.blockLevel - 1 = 0 := by rw [h]; decide
    have hflags : stepFlags st ("END".toList) =
        { st with menu := false, dialog := false, dialogId := none, stringTbl := false,
                  blockLevel := st.blockLevel - 1 } := by
      simp only [stepFlags, hnorm, hdm, hsuf, if_neg hBEG, if_pos rfl, if_pos hz]
      simp
    unfold stepLine
    rw [hflags]
    refine ⟨by rw [emitGate_dialog, dispatch_dialog], by rw [emitGate_dialogId, dispatch_dialogId], ?_⟩
    rw [emitGate_blockLevel, dispatch_blockLevel]
    show st.blockLevel - 1 = 0
    exact hz

def c7StateA : RcState :=
  { initState with dialog := true, dialogId := some ("IDD_X".toList), blockLevel := 2 }

def c7StateB : RcState :=
  { initState with dialog := true, dialogId := some ("IDD_X".toList), blockLevel := 1 }

theorem C7_witness :
    ((stepLine c7StateA ("END".toList)).dialog = true ∧
     (stepLine c7StateA ("END".toList)).dialogId = some ("IDD_X".toList) ∧
     (stepLine c7StateA ("END".toList)).blockLevel = 1) ∧
    ((stepLine c7StateB ("END".toList)).dialog = false ∧
     (stepLine c7StateB ("END".toList)).dialogId = none ∧
     (stepLine c7StateB ("END".toList)).blockLevel = 0) :=
  ⟨C7_nested_end.1 c7StateA rfl, C7_nested_end.2 c7StateB rfl⟩

/-! ## Totality of the extractor (claim C3) -/

lemma hexDigitVal_lt (c : Char) : hexDigitVal c < 16 := by
  unfold hexDigitVal
  split
  · next h =>
    simp only [Bool.and_eq_true, decide_eq_true_eq] at h
    have h2 : c.toNat ≤ 57 := h.2
    omega
  · split
    · next h =>
      simp only [Bool.and_eq_true, decide_eq_true_eq] at h
      have h2 : c.toNat ≤ 102 := h.2
      omega
    · split
      · next h =>
        simp only [Bool.and_eq_true, decide_eq_true_eq] at h
        have h2 : c.toNat ≤ 70 := h.2
        omega
      · omega

lemma decodeWideE_ok (l : Line) : decodeWideE l = Except.ok (decodeWide l) := by
  induction l using decodeWide.induct with
  | case1 a b c d rest hex ih =>
    have hv : hexDigitVal a * 4096 + hexDigitVal b * 256 + hexDigitVal c * 16 + hexDigitVal d
        < 1114112 := by
      have ha := hexDigitVal_lt a
      have hb := hexDigitVal_lt b
      have hc := hexDigitVal_lt c
      have hd := hexDigitVal_lt d
      omega
    simp only [decodeWideE, decodeWide, hex, if_true, chrE, if_pos hv, ih]
    rfl
  | case2 a b c d rest hex ih =>
    simp only [decodeWideE, decodeWide, hex] at ih ⊢
    rcases hE : decodeWideE (a :: b :: c :: d :: rest) with e | v <;> rw [hE] at ih <;> simp_all
  | case3 ch rest h ih =>
    simp only [decodeWideE, decodeWide]
    rw [ih]
    rfl
  | case4 => rfl

lemma decodeLiteralE_ok (r : Line) : decodeLiteralE r = Except.ok (decodeLiteral r) := by
  simp only [decodeLiteralE, decodeLiteral]
  split
  · exact decodeWideE_ok _
  · rfl

lemma stepLineE_ok (st : RcState) (l : Line) : stepLineE st l = Except.ok (stepLine st l) := by
  simp only [stepLineE, stepLine, emitGate]
  split
  · split
    · rfl
    · rw [decodeLiteralE_ok]
      rfl
  · rfl

lemma foldlM_ok (ls : List Line) :
    ∀ st : RcState, ls.foldlM stepLineE st = Except.ok (ls.foldl stepLine st) := by
  induction ls with
  | nil => intro st; rfl
  | cons l ls ih =>
    intro st
    rw [List.foldlM_cons, stepLineE_ok]
    simp only [List.foldl_cons]
    exact ih (stepLine st l)

/-- C3: the exception-instrumented extractor never raises: on every input
text whatsoever it returns ok with exactly the plain extractor's (possibly
empty) list of strings; unmatched lines contribute nothing rather than
failing. -/
theorem C3_never_raises (text : Line) :
    parse_rc_fileE text = Except.ok (parse_rc_file text) := by
  unfold parse_rc_fileE parse_rc_file runLines
  rw [foldlM_ok]
  rfl

theorem C3_witness :
    parse_rc_fileE ("\x00garbage \"unterminated\nEND\nEND\nL\"\\xFFFF\"".toList) =
      Except.ok (parse_rc_file ("\x00garbage \"unterminated\nEND\nEND\nL\"\\xFFFF\"".toList)) :=
  C3_never_raises _

/-! ## Round trip (claim C2)

The intermediate bodies body1/body2 describe the encoder output after the
first and second replacement stages of the decoder; they are proof-internal
descriptions, not source translations. -/

def esc1 (c : Char) : Line :=
  if c = '\n' then ['\\', 'n'] else if c = '\t' then ['\\', 't'] else [c]

def body1 : Line → Line
  | [] => []
  | c :: rest => esc1 c ++ body1 rest

def esc2 (c : Char) : Line :=
  if c = '\t' then ['\\', 't'] else [c]

def body2 : Line → Line
  | [] => []
  | c :: rest => esc2 c ++ body2 rest

lemma replace2_cons_ne (a b : Char) (rep : Line) (x : Char) (l : Line) (hx : (x == a) = false) :
    replace2 a b rep (x :: l) = x :: replace2 a b rep l := by
  cases l with
  | nil => simp [replace2]
  | cons y t => simp [replace2, hx]

lemma replace2_cons2_ne (a b : Char) (rep : Line) (x y : Char) (l : Line)
    (hy : (y == b) = false) :
    replace2 a b rep (x :: y :: l) = x :: replace2 a b rep (y :: l) := by
  simp [replace2, hy]

lemma replace3_cons_ne (a b c : Char) (rep : Line) (x : Char) (l : Line)
    (hx : (x == a) = false) :
    replace3 a b c rep (x :: l) = x :: replace3 a b c rep l := by
  cases l with
  | nil => simp [replace3]
  | cons y t =>
    cases t with
    | nil => simp [replace3]
    | cons z u => simp [replace3, hx]

lemma hasChar_eq_false (x : Char) (l : Line) (h : ∀ c ∈ l, ¬ c = x) : hasChar x l = false := by
  induction l with
  | nil => rfl
  | cons c rest ih =>
    simp only [hasChar, Bool.or_eq_false_iff]
    exact ⟨by simpa using h c (List.mem_cons_self c rest),
           ih (fun c hc => h c (List.mem_cons_of_mem _ hc))⟩

lemma hasChar_append_self (x : Char) (l : Line) : hasChar x (l ++ [x]) = true := by
  induction l with
  | nil => simp [hasChar]
  | cons c rest ih => simp [hasChar, ih]

lemma takeWhileAll (p : Char → Bool) (l : Line) (h : ∀ c ∈ l, p c = true) :
    l.takeWhile p = l := by
  induction l with
  | nil => rfl
  | cons c rest ih =>
    rw [List.takeWhile_cons, if_pos (h c (List.mem_cons_self c rest)),
        ih (fun c hc => h c (List.mem_cons_of_mem _ hc))]

lemma okChar_parts {c : Char} (h : okChar c = true) :
    ¬ c = '"' ∧ ¬ c = '\\' ∧ (c = '\r' ∨ c = '\n' ∨ isLineBreakChar c = false) := by
  simp only [okChar, Bool.and_eq_true, Bool.or_eq_true, Bool.not_eq_true',
    beq_iff_eq, beq_eq_false_iff_ne, ne_eq] at h
  tauto

lemma escBody_chars (s : Line) (hok : ∀ c ∈ s, okChar c = true) :
    ∀ x ∈ escBody s, x = '\\' ∨ x = 'r' ∨ x = 'n' ∨ x = 't' ∨
      (okChar x = true ∧ ¬x = '\r' ∧ ¬x = '\n' ∧ ¬x = '\t' ∧ ¬x = '"') := by
  induction s with
  | nil => simp [escBody]
  | cons c rest ih =>
    intro x hx
    simp only [escBody, List.mem_append] at hx
    rcases hx with h | h
    · unfold escChar at h
      split_ifs at h with h1 h2 h3 h4
      · rcases List.mem_pair.mp h with rfl | rfl
        · exact Or.inl rfl
        · exact Or.inr (Or.inl rfl)
      · rcases List.mem_pair.mp h with rfl | rfl
        · exact Or.inl rfl
        · exact Or.inr (Or.inr (Or.inl rfl))
      · rcases List.mem_pair.mp h with rfl | rfl
        · exact Or.inl rfl
        · exact Or.inr (Or.inr (Or.inr (Or.inl rfl)))
      · rcases List.mem_pair.mp h with rfl | rfl
        · exact Or.inl rfl
        · exact absurd (hok '"' (by rw [← h4]; exact List.mem_cons_self c rest))
            (by decide)
      · have hx' : x = c := by simpa using h
        subst hx'
        exact Or.inr (Or.inr (Or.inr (Or.inr
          ⟨hok x (List.mem_cons_self x rest), h1, h2, h3, h4⟩)))
    · exact ih (fun c hc => hok c (List.mem_cons_of_mem _ hc)) x h

lemma escBody_no_quote (s : Line) (hok : ∀ c ∈ s, okChar c = true) :
    hasChar '"' (escBody s) = false := by
  refine hasChar_eq_false _ _ (fun x hx => ?_)
  rcases escBody_chars s hok x hx with rfl | rfl | rfl | rfl | ⟨_, _, _, _, h5⟩ <;>
    first | decide | exact h5

lemma escBody_no_lf (s : Line) (hok : ∀ c ∈ s, okChar c = true) :
    hasChar '\n' (escBody s) = false := by
  refine hasChar_eq_false _ _ (fun x hx => ?_)
  rcases escBody_chars s hok x hx with rfl | rfl | rfl | rfl | ⟨_, _, h3, _, _⟩ <;>
    first | decide | exact h3

lemma escBody_no_break (s : Line) (hok : ∀ c ∈ s, okChar c = true) :
    ∀ x ∈ escBody s, isLineBreakChar x = false := by
  intro x hx
  rcases escBody_chars s hok x hx with rfl | rfl | rfl | rfl | ⟨h1, h2, h3, _, _⟩
  · decide
  · decide
  · decide
  · decide
  · rcases (okChar_parts h1).2.2 with h | h | h
    · exact absurd h h2
    · exact absurd h h3
    · exact h

lemma encodeRC_no_break (s : Line) (hok : ∀ c ∈ s, okChar c = true) :
    ∀ x ∈ encodeRC s, isLineBreakChar x = false := by
  intro x hx
  simp only [encodeRC, List.mem_cons, List.mem_append, List.mem_singleton] at hx
  rcases hx with rfl | hx | rfl | h
  · decide
  · exact escBody_no_break s hok x hx
  · decide
  · cases h

lemma splitlinesAux_no_break : ∀ (l acc : Line), (∀ c ∈ l, isLineBreakChar c = false) →
    splitlinesAux acc l = [acc.reverse ++ l] := by
  intro l
  induction l with
  | nil => intro acc _; simp [splitlinesAux]
  | cons c rest ih =>
    intro acc h
    have hc : isLineBreakChar c = false := h c (List.mem_cons_self c rest)
    cases rest with
    | nil => simp [splitlinesAux, hc]
    | cons d rest2 =>
      have hcr : (c == '\r') = false := by
        by_cases hcc : c = '\r'
        · rw [hcc] at hc
          exact absurd hc (by decide)
        · simp [hcc]
      simp only [splitlinesAux, hcr, Bool.false_and, Bool.false_eq_true, if_false, hc]
      rw [ih (c :: acc) (fun x hx => h x (List.mem_cons_of_mem _ hx))]
      simp

lemma splitlines_single (l : Line) (hne : l.isEmpty = false)
    (h : ∀ c ∈ l, isLineBreakChar c = false) : splitlines l = [l] := by
  unfold splitlines
  rw [if_neg (by rw [hne]; exact Bool.false_ne_true)]
  rw [splitlinesAux_no_break l [] h]
  simp

lemma stripPy_keep (a b : Char) (l : Line) (ha : isPySpace a = false) (hb : isPySpace b = false) :
    stripPy (a :: (l ++ [b])) = a :: (l ++ [b]) := by
  unfold stripPy
  rw [List.dropWhile_cons, if_neg (by rw [ha]; exact Bool.false_ne_true)]
  have h1 : (a :: (l ++ [b])).reverse = b :: (l.reverse ++ [a]) := by simp
  rw [h1, List.dropWhile_cons, if_neg (by rw [hb]; exact Bool.false_ne_true)]
  simp

lemma collapseWS_cons (c : Char) (l : Line) (h : isTabSpace c = false) :
    collapseWS (c :: l) = c :: collapseWSAux false l := by
  simp [collapseWS, collapseWSAux, h]

lemma stripComment_cons (c : Char) (l : Line) (h : (c == '/') = false) :
    stripComment (c :: l) = c :: stripComment l := by
  simp [stripComment, h]

lemma norm_encode (s : Line) : ∃ t : Line, normalizeLine (encodeRC s) = '"' :: t := by
  unfold normalizeLine encodeRC
  rw [stripPy_keep '"' '"' (escBody s) (by decide) (by decide),
      collapseWS_cons '"' _ (by decide),
      stripComment_cons '"' _ (by decide)]
  exact ⟨_, rfl⟩

lemma dialogMatch_quote (t : Line) : dialogMatch ('"' :: t) = none := by
  unfold dialogMatch
  rw [List.takeWhile_cons, if_neg (show ¬(isWordChar '"' = true) by decide)]
  simp

lemma quote_ne_BEGIN (t : Line) : ¬ ('"' :: t = "BEGIN".toList) := by
  intro h
  rw [show ("BEGIN".toList : Line) = 'B' :: "EGIN".toList from rfl] at h
  exact absurd (List.cons.injEq _ _ _ _ ▸ h).1 (by decide)

lemma quote_ne_END (t : Line) : ¬ ('"' :: t = "END".toList) := by
  intro h
  rw [show ("END".toList : Line) = 'E' :: "ND".toList from rfl] at h
  exact absurd (List.cons.injEq _ _ _ _ ▸ h).1 (by decide)

lemma quote_ne_STRINGTABLE (t : Line) : ¬ ('"' :: t = "STRINGTABLE".toList) := by
  intro h
  rw [show ("STRINGTABLE".toList : Line) = 'S' :: "TRINGTABLE".toList from rfl] at h
  exact absurd (List.cons.injEq _ _ _ _ ▸ h).1 (by decide)

lemma matchLQuoted_full (B : Line) (hq : hasChar '"' B = false) (hn : hasChar '\n' B = false) :
    matchLQuoted ('"' :: (B ++ ['"'])) = some ('"' :: (B ++ ['"'])) := by
  have hBlf : ∀ c ∈ B, ¬ c = '\n' := by
    intro c hc hcc
    subst hcc
    induction B with
    | nil => cases hc
    | cons d rest ih =>
      simp only [hasChar, Bool.or_eq_false_iff] at hq hn
      rcases List.mem_cons.mp hc with rfl | hc'
      · exact absurd hn.1 (by decide)
      · exact ih hq.2 hn.2 hc'
  have hseg : (B ++ ['"']).takeWhile (fun c => !(c == '\n')) = B ++ ['"'] := by
    refine takeWhileAll _ _ (fun c hc => ?_)
    rcases List.mem_append.mp hc with hc' | hc'
    · simpa using hBlf c hc'
    · have : c = '"' := by simpa using hc'
      subst this
      decide
  have hlast : upToLastQuote (B ++ ['"']) = B ++ ['"'] := by
    unfold upToLastQuote
    have h1 : (B ++ ['"']).reverse = '"' :: B.reverse := by simp
    rw [h1, List.dropWhile_cons, if_neg (by decide)]
    simp
  rw [matchLQuoted]
  rw [hseg, if_pos (hasChar_append_self '"' B), hlast]

lemma searchQuoted_encode (B : Line) (hq : hasChar '"' B = false) (hn : hasChar '\n' B = false) :
    searchQuoted ('"' :: (B ++ ['"'])) = some ('"' :: (B ++ ['"'])) := by
  rw [searchQuoted, matchLQuoted_full B hq hn]

lemma okChar_bslash_false {c : Char} (h : okChar c = true) : (c == '\\') = false := by
  rcases okChar_parts h with ⟨_, h2, _⟩
  simp [h2]

lemma stage1 (s : Line) (hok : ∀ c ∈ s, okChar c = true) :
    replace2 '\\' 'r' ['\r'] (escBody s) = body1 s := by
  induction s with
  | nil => rfl
  | cons c rest ih =>
    have hokc : okChar c = true := hok c (List.mem_cons_self c rest)
    have htl : ∀ x ∈ rest, okChar x = true := fun x hx => hok x (List.mem_cons_of_mem _ hx)
    simp only [escBody, body1]
    by_cases h1 : c = '\r'
    · subst h1
      simp only [escChar, if_pos rfl, if_true, esc1]
      rw [show ('\\' :: 'r' :: []) ++ escBody rest = '\\' :: 'r' :: escBody rest from rfl]
      rw [show replace2 '\\' 'r' ['\r'] ('\\' :: 'r' :: escBody rest)
            = ['\r'] ++ replace2 '\\' 'r' ['\r'] (escBody rest) from by simp [replace2]]
      rw [ih htl]
      rfl
    · by_cases h2 : c = '\n'
      · subst h2
        simp only [escChar, esc1, if_neg (by decide : ¬('\n' : Char) = '\r'), if_pos rfl, if_true, if_true]
        rw [show ('\\' :: 'n' :: []) ++ escBody rest = '\\' :: 'n' :: escBody rest from rfl]
        rw [replace2_cons2_ne _ _ _ _ _ _ (by decide),
            replace2_cons_ne _ _ _ _ _ (by decide), ih htl]
        rfl
      · by_cases h3 : c = '\t'
        · subst h3
          simp only [escChar, esc1, if_neg (by decide : ¬('\t' : Char) = '\r'),
            if_neg (by decide : ¬('\t' : Char) = '\n'), if_pos rfl, if_true, if_true]
          rw [show ('\\' :: 't' :: []) ++ escBody rest = '\\' :: 't' :: escBody rest from rfl]
          rw [replace2_cons2_ne _ _ _ _ _ _ (by decide),
              replace2_cons_ne _ _ _ _ _ (by decide), ih htl]
          rfl
        · have h4 : ¬ c = '"' := (okChar_parts hokc).1
          simp only [escChar, esc1, if_neg h1, if_neg h2, if_neg h3, if_neg h4]
          rw [show ([c] : Line) ++ escBody rest = c :: escBody rest from rfl]
          rw [replace2_cons_ne _ _ _ _ _ (okChar_bslash_false hokc), ih htl]
          rfl

lemma stage2 (s : Line) (hok : ∀ c ∈ s, okChar c = true) :
    replace2 '\\' 'n' ['\n'] (body1 s) = body2 s := by
  induction s with
  | nil => rfl
  | cons c rest ih =>
    have hokc : okChar c = true := hok c (List.mem_cons_self c rest)
    have htl : ∀ x ∈ rest, okChar x = true := fun x hx => hok x (List.mem_cons_of_mem _ hx)
    simp only [body1, body2]
    by_cases h2 : c = '\n'
    · subst h2
      simp only [esc1, esc2, if_pos rfl, if_true, if_neg (by decide : ¬('\n' : Char) = '\t')]
      rw [show ('\\' :: 'n' :: []) ++ body1 rest = '\\' :: 'n' :: body1 rest from rfl]
      rw [show replace2 '\\' 'n' ['\n'] ('\\' :: 'n' :: body1 rest)
            = ['\n'] ++ replace2 '\\' 'n' ['\n'] (body1 rest) from by simp [replace2]]
      rw [ih htl]
    · by_cases h3 : c = '\t'
      · subst h3
        simp only [esc1, esc2, if_neg (by decide : ¬('\t' : Char) = '\n'), if_pos rfl, if_true, if_true]
        rw [show ('\\' :: 't' :: []) ++ body1 rest = '\\' :: 't' :: body1 rest from rfl]
        rw [replace2_cons2_ne _ _ _ _ _ _ (by decide),
            replace2_cons_ne _ _ _ _ _ (by decide), ih htl]
        rfl
      · simp only [esc1, esc2, if_neg h2, if_neg h3]
        rw [show ([c] : Line) ++ body1 rest = c :: body1 rest from rfl]
        rw [replace2_cons_ne _ _ _ _ _ (okChar_bslash_false hokc), ih htl]
        rfl

lemma stage3 (s : Line) (hok : ∀ c ∈ s, okChar c = true) :
    replace2 '\\' 't' ['\t'] (body2 s) = s := by
  induction s with
  | nil => rfl
  | cons c rest ih =>
    have hokc : okChar c = true := hok c (List.mem_cons_self c rest)
    have htl : ∀ x ∈ rest, okChar x = true := fun x hx => hok x (List.mem_cons_of_mem _ hx)
    simp only [body2]
    by_cases h3 : c = '\t'
    · subst h3
      simp only [esc2, if_pos rfl, if_true, if_true]
      rw [show ('\\' :: 't' :: []) ++ body2 rest = '\\' :: 't' :: body2 rest from rfl]
      rw [show replace2 '\\' 't' ['\t'] ('\\' :: 't' :: body2 rest)
            = ['\t'] ++ replace2 '\\' 't' ['\t'] (body2 rest) from by simp [replace2]]
      rw [ih htl]
      rfl
    · simp only [esc2, if_neg h3]
      rw [show ([c] : Line) ++ body2 rest = c :: body2 rest from rfl]
      rw [replace2_cons_ne _ _ _ _ _ (okChar_bslash_false hokc), ih htl]

lemma stage4 (s : Line) (hok : ∀ c ∈ s, okChar c = true) :
    replace3 '\\' '\\' '"' ['"'] s = s := by
  induction s with
  | nil => rfl
  | cons c rest ih =>
    have hokc : okChar c = true := hok c (List.mem_cons_self c rest)
    have htl : ∀ x ∈ rest, okChar x = true := fun x hx => hok x (List.mem_cons_of_mem _ hx)
    rw [replace3_cons_ne _ _ _ _ _ _ (okChar_bslash_false hokc), ih htl]

lemma bodyOf_concat (B : Line) (hn : hasChar '\n' B = false) :
    bodyOf (B ++ ['"']) = some B := by
  unfold bodyOf
  rw [List.getLast?_concat, List.dropLast_concat]
  simp [hn]

lemma stripOuter_encode (s : Line) (hok : ∀ c ∈ s, okChar c = true) :
    stripOuter (encodeRC s) = escBody s := by
  have h1 : stripOuter ('"' :: (escBody s ++ ['"'])) =
      (match bodyOf (escBody s ++ ['"']) with
       | some b => b
       | none => '"' :: (escBody s ++ ['"'])) := rfl
  show stripOuter ('"' :: (escBody s ++ ['"'])) = escBody s
  rw [h1, bodyOf_concat _ (escBody_no_lf s hok)]

lemma decode_encode (s : Line) (hok : ∀ c ∈ s, okChar c = true) :
    decodeLiteral (encodeRC s) = s := by
  have hwide : ((encodeRC s).head? == some 'L') = false := by
    simp [encodeRC]
  simp only [decodeLiteral, hwide, Bool.false_eq_true, if_false]
  rw [stripOuter_encode s hok, stage1 s hok, stage2 s hok, stage3 s hok, stage4 s hok]

lemma stepLine_quoted_line (line t : Line)
    (hnorm : normalizeLine line = '"' :: t)
    (hsearch : searchQuoted line = some line)
    (hne : line.isEmpty = false) :
    (stepLine initState line).strings = [decodeLiteral line] := by
  have hflags : stepFlags initState line =
      { initState with menu := decide ((" MENU".toList) <:+ ('"' :: t)) } := by
    simp only [stepFlags, hnorm, dialogMatch_quote, if_neg (quote_ne_BEGIN t),
      if_neg (quote_ne_END t), if_neg (quote_ne_STRINGTABLE t)]
    simp [initState]
  have hdial : ({ initState with menu := decide ((" MENU".toList) <:+ ('"' :: t)) } :
      RcState).dialog = false := rfl
  have hbl : ({ initState with menu := decide ((" MENU".toList) <:+ ('"' :: t)) } :
      RcState).blockLevel = 0 := rfl
  have htrip : dispatchTriple (stepFlags initState line) line = (none, none, some line) := by
    rw [hflags]
    unfold dispatchTriple
    rw [if_neg (by rw [hdial]; simp)]
    rw [if_neg (by rw [hbl]; simp)]
    rw [hsearch]
    rfl
  show (emitGate (dispatch (stepFlags initState line) line)).strings = _
  unfold dispatch
  rw [htrip]
  simp only [emitGate]
  simp only [hne, Bool.false_eq_true, if_false]
  rw [hflags]
  rfl

/-- C2 (amended): the round trip holds for every string whose characters
contain no double quote, no backslash, and no line separator other than
carriage return and line feed: encoding it as an RC literal and running the
extractor on that single line returns exactly the one-element list with the
original string. -/
theorem C2_amended (s : Line) (hok : ∀ c ∈ s, okChar c = true) :
    parse_rc_file (encodeRC s) = [s] := by
  have hsplit : splitlines (encodeRC s) = [encodeRC s] :=
    splitlines_single _ (by simp [encodeRC]) (encodeRC_no_break s hok)
  obtain ⟨t, hnorm⟩ := norm_encode s
  have hsearch : searchQuoted (encodeRC s) = some (encodeRC s) := by
    show searchQuoted ('"' :: (escBody s ++ ['"'])) = _
    exact searchQuoted_encode _ (escBody_no_quote s hok) (escBody_no_lf s hok)
  unfold parse_rc_file runLines
  rw [hsplit]
  simp only [List.foldl_cons, List.foldl_nil]
  rw [stepLine_quoted_line (encodeRC s) t hnorm hsearch (by simp [encodeRC])]
  rw [decode_encode s hok]

theorem C2_witness :
    (∀ c ∈ ("Hello,\tRC world!".toList : Line), okChar c = true) ∧
      parse_rc_file (encodeRC ("Hello,\tRC world!".toList)) = [("Hello,\tRC world!".toList)] :=
  ⟨by decide, C2_amended _ (by decide)⟩
